import Mathlib

/-!
Verification development for the MemoryVault AI repository.

This file gives a shallow embedding, in Lean 4, of the parts of the
repository that the specification's claims are about:

* `src/memory_processor.py` — the fallback emotion classifier
  (`basic_emotion_analysis`), the fallback location scan inside
  `process_memory`, the keyword scorer (`keyword_search`) and the
  recall pipeline (`recall_memories`);
* `src/data_store.py` — `update_memory`, `delete_memory`,
  `export_memories_json`, `import_memories_json`;
* `src/app.py` — memory creation (Capture / Time Capsule tabs), the
  unlock-date availability filter used by the Recall (filter path),
  Mind Map and Summaries tabs, and the query-driven Recall call.

Modelling conventions:

* A Python memory dict becomes the `Memory` structure.  A key that may
  be absent or `None` (`embedding`, `unlock_date`, `relevance_score`)
  becomes an `Option` field, with `none` for "absent or None".
* Python floats (embedding coordinates, similarity scores) are
  modelled as exact integers: the claims under study are about which
  formula the code computes and how results are ordered, not about
  float rounding, and every formula involved (sums, products,
  comparisons) is computed exactly here.
* Python string operations are modelled structurally on the character
  lists underlying `String`, so that every definition evaluates inside
  the kernel: `pyIn` is the `in` substring operator, `pyStrLe` is
  `<=` on strings (code-point lexicographic), `pySplitWs` is
  `str.split()` (whitespace runs, no empty fields), `pySplitOn` is
  `str.split(sep)` and `pyLower` is `str.lower()` (the texts involved
  are ASCII).
* `sorted(..., key=..., reverse=True)` and `list.sort(key=...,
  reverse=True)` are stable descending sorts; they are modelled by
  the stable descending insertion sort `sortDesc`, whose
  characterising properties (permutation, descending order, equal
  keys keep their input order) are proved below.
* Each external OpenAI call made by `recall_memories` either returns a
  parsed value or raises; a call's outcome is modelled as an `Option`
  in a `RecallEnv` record, `none` meaning "the call (or parsing its
  response) raised an exception".  The exception handlers of the code
  become the `match`es on those options.
-/

/-! ## Python string primitives -/

/-- Build a string from its character list. -/
def mkStr (l : List Char) : String := ⟨l⟩

/-- Prefix test on character lists. -/
def listPre (n h : List Char) : Bool :=
  match n, h with
  | [], _ => true
  | _ :: _, [] => false
  | a :: as, b :: bs => a == b && listPre as bs

/-- Contiguous-substring test on character lists. -/
def listSub (n h : List Char) : Bool :=
  match h with
  | [] => n.isEmpty
  | c :: t => listPre n (c :: t) || listSub n t

/-- Python's `needle in hay` substring operator on strings. -/
def pyIn (needle hay : String) : Bool :=
  listSub needle.data hay.data

/-- Python `a < b` on strings: lexicographic by code point. -/
def charListLt (a b : List Char) : Bool :=
  match a, b with
  | [], [] => false
  | [], _ :: _ => true
  | _ :: _, [] => false
  | x :: xs, y :: ys => if x < y then true else if y < x then false else charListLt xs ys

/-- Python `a <= b` on strings (total order, so `a <= b` iff `not (b < a)`). -/
def pyStrLe (a b : String) : Bool :=
  !(charListLt b.data a.data)

/-- Python `str.lower()` (ASCII case folding). -/
def pyLower (s : String) : String :=
  mkStr (s.data.map Char.toLower)

/-- Fuel-indexed worker for `pySplitOn`: split at each leftmost
non-overlapping occurrence of `sep`.  The fuel is the length of the
scanned list, so the fuel-exhausted branch is never reached by
`pySplitOn`. -/
def pySplitGo : Nat → List Char → List Char → List (List Char)
  | _, _, [] => [[]]
  | 0, _, l => [l]
  | fuel + 1, sep, c :: t =>
    if !sep.isEmpty && listPre sep (c :: t) then
      [] :: pySplitGo fuel sep ((c :: t).drop sep.length)
    else
      match pySplitGo fuel sep t with
      | [] => [[c]]
      | f :: rest => (c :: f) :: rest

/-- Python `s.split(sep)` for a non-empty separator. -/
def pySplitOn (s sep : String) : List String :=
  (pySplitGo s.data.length sep.data s.data).map mkStr

/-- Split a character list at whitespace characters (keeping empty
fields, which `pySplitWs` then discards). -/
def wsSplit : List Char → List (List Char)
  | [] => [[]]
  | c :: t =>
    match wsSplit t with
    | [] => [[]]
    | f :: rest => if c.isWhitespace then [] :: f :: rest else (c :: f) :: rest

/-- Python `str.split()` with no argument: split on whitespace runs,
discarding empty fields. -/
def pySplitWs (s : String) : List String :=
  ((wsSplit s.data).map mkStr).filter (fun w => !(w == ""))

/-- Python `sep.join(l)`. -/
def pyJoin (sep : String) (l : List String) : String :=
  mkStr (((l.map (fun x => x.data)).intersperse sep.data).flatten)

/-- Python `max(l, default=d)` on integers. -/
def listMaxD (l : List Int) (d : Int) : Int :=
  match l with
  | [] => d
  | x :: xs => xs.foldl max x

/-! ## The memory record -/

/-- A memory record, from the dict built in the Capture tab
(`src/app.py` lines 200-212).  Optional fields model dict keys that
may be absent or `None`. -/
structure Memory where
  id : Int
  text : String
  date : String
  emotion : String
  people : List String
  location : String
  topics : List String
  context : String
  embedding : Option (List Int)
  unlock_date : Option String
  relevance_score : Option Int
deriving DecidableEq

/-- A memory with every field at its "empty" value; concrete memories
in witnesses below are built by updating it. -/
def mem0 : Memory :=
  { id := 0, text := "", date := "", emotion := "", people := [],
    location := "Unknown", topics := [], context := "",
    embedding := none, unlock_date := none, relevance_score := none }

/-! ## Stable descending sort

`sorted(..., key=..., reverse=True)` and `list.sort(key=...,
reverse=True)` in Python are stable: elements with equal keys keep
their input order.  `sortDesc` is a stable descending insertion sort;
its characterising properties are proved in the theorem section. -/

/-- Insert `a` in front of the first element whose key is `≤` the key
of `a` (so, after all strictly greater keys, and before all equal
keys, which entered the list later than `a` did). -/
def insDesc {α : Type} (k : α → Int) (a : α) : List α → List α
  | [] => [a]
  | b :: t => if k b ≤ k a then a :: b :: t else b :: insDesc k a t

/-- Stable descending insertion sort by the key `k`. -/
def sortDesc {α : Type} (k : α → Int) : List α → List α
  | [] => []
  | a :: t => insDesc k a (sortDesc k t)

/-- Sort key `x.get('relevance_score', 0)` used by both sorts in
`src/memory_processor.py` (lines 229 and 311). -/
def scoreKey (m : Memory) : Int :=
  m.relevance_score.getD 0

/-- The stable descending sort by `relevance_score` used at
`src/memory_processor.py` lines 229 and 311. -/
def sortByScoreDesc (l : List Memory) : List Memory :=
  sortDesc scoreKey l

/-! ## keyword_search (src/memory_processor.py lines 203-229) -/

/-- Keyword score of one memory for a list of query words
(`src/memory_processor.py` lines 208-221): `sum(1 ...)` over words in
the lower-cased text, `sum(3 ...)` over words in the emotion,
`sum(2 ...)` over words in the location and `sum(2 ...)` over words in
the space-joined lower-cased people list. -/
def kwScore (qwords : List String) (m : Memory) : Nat :=
  let mt := pyLower m.text
  let me := pyLower m.emotion
  let ml := pyLower m.location
  let mp := pyJoin " " (m.people.map pyLower)
  (qwords.countP (fun w => pyIn w mt))
    + 3 * (qwords.countP (fun w => pyIn w me))
    + 2 * (qwords.countP (fun w => pyIn w ml))
    + 2 * (qwords.countP (fun w => pyIn w mp))

/-- `keyword_search` from `src/memory_processor.py` lines 203-229:
lower-case and whitespace-split the query, annotate every memory with
its keyword score as `relevance_score`, and stably sort descending. -/
def keyword_search (query : String) (mems : List Memory) : List Memory :=
  let qwords := pySplitWs (pyLower query)
  sortByScoreDesc (mems.map (fun m => { m with relevance_score := some ((kwScore qwords m : Int)) }))

/-! ## basic_emotion_analysis (src/memory_processor.py lines 43-66) -/

/-- The seven emotion categories with their keyword lists, in
declaration order (`src/memory_processor.py` lines 45-53). -/
def emotionKeywords : List (String × List String) :=
  [("Happy", ["happy", "joy", "excited", "glad", "delighted", "pleased"]),
   ("Sad", ["sad", "unhappy", "depressed", "down", "blue", "upset"]),
   ("Angry", ["angry", "mad", "furious", "annoyed", "irritated"]),
   ("Anxious", ["anxious", "worried", "nervous", "stressed"]),
   ("Peaceful", ["peaceful", "calm", "relaxed", "tranquil"]),
   ("Nostalgic", ["nostalgic", "remember", "memory", "past", "childhood"]),
   ("Grateful", ["grateful", "thankful", "appreciate"])]

/-- Python `max(items, key=lambda x: x[1])`: keep the current item
unless a later one is strictly greater, so the first item reaching the
maximum wins. -/
def pyMaxSnd (best : String × Nat) : List (String × Nat) → String × Nat
  | [] => best
  | x :: xs => pyMaxSnd (if x.2 > best.2 then x else best) xs

/-- Per-category score: the number of the category's keywords that
occur as substrings of the lower-cased text
(`src/memory_processor.py` lines 56-60). -/
def emotionScores (text : String) : List (String × Nat) :=
  let txt := pyLower text
  emotionKeywords.map (fun c => (c.1, c.2.countP (fun kw => pyIn kw txt)))

/-- `basic_emotion_analysis` from `src/memory_processor.py` lines
43-66: score the seven categories; when any score is non-zero the
result is `max(emotion_scores.items(), key=lambda x: x[1])[0]`, that
is `pyMaxSnd` over the head and tail of the score list (which has the
seven categories, so the `headD` default is never used); otherwise
`"Neutral"`. -/
def basic_emotion_analysis (text : String) : String :=
  let scores := emotionScores text
  if scores.any (fun x => x.2 != 0) then
    (pyMaxSnd (scores.headD ("Neutral", 0)) scores.tail).1
  else "Neutral"

/-! ## Fallback location scan (src/memory_processor.py lines 120-130) -/

/-- One iteration of the location loop for keyword `k`: the containment
test is against the space-padded text, the candidate is the split
field after the first occurrence of the padded keyword, truncated at
the first `'.'` and then the first `','`, and it is accepted only when
its length is under 30. -/
def locScan (text : String) : List String → String
  | [] => "Unknown"
  | k :: rest =>
    if pyIn (" " ++ k ++ " ") (" " ++ text ++ " ") then
      let parts := pySplitOn text (" " ++ k ++ " ")
      if parts.length > 1 then
        let pl := ((pySplitOn (((pySplitOn ((parts.get? 1).getD "") ".").headD "")) ",").headD "")
        if pl.data.length < 30 then pl else locScan text rest
      else locScan text rest
    else locScan text rest

/-- The fallback location extraction of `process_memory`
(`src/memory_processor.py` lines 120-130): scan the four location
keywords in order, `'Unknown'` when every keyword fails. -/
def fallback_location (text : String) : String :=
  locScan text ["at", "in", "near", "by"]

/-! ## recall_memories (src/memory_processor.py lines 187-365) -/

/-- The search parameters parsed from the parameter-extraction LLM
response (`src/memory_processor.py` lines 257-277).  A key that is
missing and a key holding an empty list disable the corresponding
filter in exactly the same way, so both are modelled by `[]`. -/
structure SearchParams where
  emotions : List String
  people : List String
  locations : List String
deriving DecidableEq

/-- Outcomes of the external calls made during one run of
`recall_memories`.  `queryEmbedding` is the value returned by
`generate_memory_embedding(query)` (that function has its own
catch-all fallback and always returns a non-empty vector).
`searchParams = none` means the parameter-extraction call raised
(handler at line 279); `ranking = none` means the final re-ranking
call raised (handler at line 356); `ranking = some ids` is the parsed
`memory_ids` list. -/
structure RecallEnv where
  queryEmbedding : List Int
  searchParams : Option SearchParams
  ranking : Option (List Int)
deriving DecidableEq

/-- The three sequential conjunctive filters applied on a successful
parameter extraction (`src/memory_processor.py` lines 262-278):
emotion and location by case-insensitive substring, people by exact
case-insensitive membership; an empty parameter list skips its
filter. -/
def paramFilter (p : SearchParams) (mems : List Memory) : List Memory :=
  let f1 := if !p.emotions.isEmpty then
      mems.filter (fun m => p.emotions.any (fun e => pyIn (pyLower e) (pyLower m.emotion)))
    else mems
  let f2 := if !p.people.isEmpty then
      f1.filter (fun m => p.people.any (fun q => (m.people.map pyLower).contains (pyLower q)))
    else f1
  if !p.locations.isEmpty then
    f2.filter (fun m => p.locations.any (fun w => pyIn (pyLower w) (pyLower m.location)))
  else f2

/-- The hard-coded emotion list of the degraded heuristic
(`src/memory_processor.py` line 286). -/
def commonEmotions : List String :=
  ["happy", "sad", "angry", "excited", "frustrated", "anxious", "peaceful"]

/-- The degraded filtering heuristic used when parameter extraction
raised (`src/memory_processor.py` lines 282-295): the first common
emotion word occurring in the query filters the memories, and the
loop breaks. -/
def heuristicFilter (query : String) (mems : List Memory) : List Memory :=
  match commonEmotions.find? (fun e => pyIn e (pyLower query)) with
  | some e => mems.filter (fun m => pyIn e (pyLower m.emotion))
  | none => mems

/-- The filtering stage of the pipeline: parameter filters on success,
heuristic on exception (`src/memory_processor.py` lines 235-295). -/
def filterStage (query : String) (sp : Option SearchParams) (mems : List Memory) : List Memory :=
  match sp with
  | some p => paramFilter p mems
  | none => heuristicFilter query mems

/-- Python truthiness of `memory.get('embedding')`: a present,
non-empty vector. -/
def embTruthy (m : Memory) : Bool :=
  match m.embedding with
  | none => false
  | some e => !e.isEmpty

/-- Dot product after truncating both vectors to the shorter length
(`src/memory_processor.py` lines 303-305); no normalisation by
magnitude. -/
def dotTrunc (a b : List Int) : Int :=
  let n := min a.length b.length
  (((a.take n).zip (b.take n)).map (fun p => p.1 * p.2)).foldl (· + ·) 0

/-- Relevance of one memory to the query embedding
(`src/memory_processor.py` lines 300-308): the truncated dot product,
or 0 for a memory lacking an embedding. -/
def embScore (qe : List Int) (m : Memory) : Int :=
  if embTruthy m then dotTrunc qe (m.embedding.getD []) else 0

/-- The embedding-similarity stage (`src/memory_processor.py` lines
297-311): when both the query embedding and the filtered set are
non-empty (Python truthiness), annotate every filtered memory with its
`embScore` and stably sort descending; otherwise leave the list as
is. -/
def embStage (qe : List Int) (filtered : List Memory) : List Memory :=
  if !qe.isEmpty && !filtered.isEmpty then
    sortByScoreDesc (filtered.map (fun m => { m with relevance_score := some (embScore qe m) }))
  else filtered

/-- Lookup in the dict `{m.get('id'): m for m in filtered_memories}`
(`src/memory_processor.py` line 347): the last memory with the given
id wins, `none` when the id is absent. -/
def lookupLast (l : List Memory) (i : Int) : Option Memory :=
  l.foldl (fun acc m => if m.id == i then some m else acc) none

/-- The candidate list supplied to the final re-ranking call:
`filtered_memories[:20]` (`src/memory_processor.py` line 323). -/
def rankingCandidates (filtered : List Memory) : List Memory :=
  filtered.take 20

/-- The final re-ranking stage (`src/memory_processor.py` lines
313-358).  `none` means the stage fell through to line 360: the
filtered set was empty (so no call was made), or the call raised and
the handler at line 356 swallowed the exception.  On success the
result is the ranked ids resolved through the candidate map (absent
ids silently dropped) followed by the filtered memories whose id the
ranking did not mention, in their prior order. -/
def rankStage (ranking : Option (List Int)) (filtered : List Memory) : Option (List Memory) :=
  match ranking with
  | none => none
  | some ids =>
    if filtered.isEmpty then none
    else some ((ids.filterMap (fun i => lookupLast filtered i))
      ++ filtered.filter (fun m => !(ids.contains m.id)))

/-- `recall_memories` from `src/memory_processor.py` lines 187-365:
empty input short-circuits to `[]`; then filtering, embedding
similarity and re-ranking run in sequence, and when the re-ranking
stage does not return, the filtered set is returned if non-empty, else
the keyword scorer over the original collection.  Exceptions of the
two fallible stages are the `none` cases of `env`; the function is
total, so no exception propagates out of the model. -/
def recall_memories (query : String) (mems : List Memory) (env : RecallEnv) : List Memory :=
  if mems.isEmpty then []
  else
    let filtered := filterStage query env.searchParams mems
    let sorted := embStage env.queryEmbedding filtered
    match rankStage env.ranking sorted with
    | some result => result
    | none => if !sorted.isEmpty then sorted else keyword_search query mems

/-! ## Data store (src/data_store.py) and app-level operations -/

/-- `update_memory` from `src/data_store.py` lines 76-102.  The result
is `(returned value, resulting collection, wrote to disk)`: the first
memory matching the id is updated in place, saved, and `True`
returned; otherwise `False` with the collection untouched and no
write.  The `updated_data` dict merge is modelled by the update
function `upd`. -/
def update_memory (store : List Memory) (mid : Int) (upd : Memory → Memory) :
    Bool × List Memory × Bool :=
  match store with
  | [] => (false, [], false)
  | m :: rest =>
    if m.id == mid then (true, upd m :: rest, true)
    else
      let r := update_memory rest mid upd
      (r.1, m :: r.2.1, r.2.2)

/-- `delete_memory` from `src/data_store.py` lines 117-142, with the
same result convention as `update_memory`: the first memory matching
the id is removed and saved. -/
def delete_memory (store : List Memory) (mid : Int) : Bool × List Memory × Bool :=
  match store with
  | [] => (false, [], false)
  | m :: rest =>
    if m.id == mid then (true, rest, true)
    else
      let r := delete_memory rest mid
      (r.1, m :: r.2.1, r.2.2)

/-- `update_memory_unlock_date` from `src/data_store.py` lines
104-115: update only the `unlock_date` field. -/
def update_memory_unlock_date (store : List Memory) (mid : Int) (d : String) :
    Bool × List Memory × Bool :=
  update_memory store mid (fun m => { m with unlock_date := some d })

/-- `export_memories_json` from `src/data_store.py` lines 144-162:
copy every record and delete the `embedding` key.  JSON serialisation
is the identity on the remaining fields in this model. -/
def export_memories_json (mems : List Memory) : List Memory :=
  mems.map (fun m => { m with embedding := none })

/-- `import_memories_json` from `src/data_store.py` lines 164-202:
compute `next_id = max existing id (default 0) + 1`, give the imported
records the ids `next_id, next_id + 1, ...` in order, and append them
to the current collection. -/
def import_memories_json (store imported : List Memory) : List Memory :=
  let next := listMaxD (store.map (fun m => m.id)) 0 + 1
  store ++ imported.enum.map (fun p => { p.2 with id := next + (p.1 : Int) })

/-- Memory creation in the Capture and Time Capsule tabs
(`src/app.py` lines 200-215 and 374-390): the new record's id is
`len(st.session_state.memories) + 1` and `save_memory` appends it. -/
def captureMemory (store : List Memory) (m : Memory) : List Memory :=
  store ++ [{ m with id := (store.length : Int) + 1 }]

/-- Python truthiness of `m.get('unlock_date')`: present and not the
empty string. -/
def unlockTruthy (u : Option String) : Bool :=
  match u with
  | none => false
  | some s => !(s == "")

/-- The unlock filter `not m.get('unlock_date') or m.get('unlock_date')
<= current_date` used by the Recall filter path, the Mind Map tab and
the Summaries tab (`src/app.py` lines 275-276, 318-319, 458-459). -/
def availableMemories (mems : List Memory) (now : String) : List Memory :=
  mems.filter (fun m => !unlockTruthy m.unlock_date || pyStrLe (m.unlock_date.getD "") now)

/-- The query-driven Recall path (`src/app.py` line 266): the search
calls `recall_memories(search_query, st.session_state.memories)` on
the full stored collection, with no unlock filtering. -/
def recallTab (query : String) (mems : List Memory) (env : RecallEnv) : List Memory :=
  recall_memories query mems env

/-- The store states reachable through the operations the application
performs: start empty; capture (or time-capsule creation), JSON
import, deletion by id, unlock-date update. -/
inductive Reachable : List Memory → Prop where
  | empty : Reachable []
  | capture (m : Memory) {s : List Memory} : Reachable s → Reachable (captureMemory s m)
  | importJson (l : List Memory) {s : List Memory} :
      Reachable s → Reachable (import_memories_json s l)
  | deleteById (mid : Int) {s : List Memory} :
      Reachable s → Reachable (delete_memory s mid).2.1
  | updateUnlock (mid : Int) (d : String) {s : List Memory} :
      Reachable s → Reachable (update_memory_unlock_date s mid d).2.1

/-! ## Specification-side definitions

These definitions follow the wording of the specification (not the
code); they are compared against the code-derived definitions in the
theorems below. -/

/-- The keyword-scorer formula as the specification words it: for each
whitespace-split lower-cased query token, add 1 when the token is a
substring of the memory text, 3 for the emotion, 2 for the location
and 2 for the space-joined people list. -/
def claimKwScore (query : String) (m : Memory) : Nat :=
  (pySplitWs (pyLower query)).foldl
    (fun acc w =>
      acc + (if pyIn w (pyLower m.text) then 1 else 0)
          + (if pyIn w (pyLower m.emotion) then 3 else 0)
          + (if pyIn w (pyLower m.location) then 2 else 0)
          + (if pyIn w (pyJoin " " (m.people.map pyLower)) then 2 else 0)) 0

/-- The location-extraction behaviour as claim C8 words it: scan for
the literal substrings `" at "`, `" in "`, `" near "`, `" by "` in
that priority order, take the text following the first match up to the
next `'.'` or `','`, accept it only when under 30 characters, and
otherwise leave `"Unknown"`. -/
def claimLocScan (text : String) : String :=
  match [" at ", " in ", " near ", " by "].find? (fun k => pyIn k text) with
  | none => "Unknown"
  | some k =>
    let after := pyJoin k ((pySplitOn text k).tail)
    let frag := (pySplitOn ((pySplitOn after ".").headD "") ",").headD ""
    if frag.data.length < 30 then frag else "Unknown"

/-- One iteration of the location loop, reformulated as a partial
result: `some` fragment when keyword `k` succeeds on `text`, `none`
when the loop would continue with the next keyword. -/
def locTryKw (text k : String) : Option String :=
  if pyIn (" " ++ k ++ " ") (" " ++ text ++ " ") then
    let parts := pySplitOn text (" " ++ k ++ " ")
    if parts.length > 1 then
      let pl := ((pySplitOn (((pySplitOn ((parts.get? 1).getD "") ".").headD "")) ",").headD "")
      if pl.data.length < 30 then some pl else none
    else none
  else none

/-! ## Helper lemmas: folded maxima -/

theorem le_foldl_max {α : Type} [LinearOrder α] (l : List α) (a : α) :
    a ≤ l.foldl max a := by
  induction l generalizing a with
  | nil => exact le_refl a
  | cons c t ih => exact le_trans (le_max_left a c) (ih (max a c))

theorem mem_le_foldl_max {α : Type} [LinearOrder α] {x : α} (l : List α) (a : α)
    (h : x ∈ l) : x ≤ l.foldl max a := by
  induction l generalizing a with
  | nil => cases h
  | cons c t ih =>
    rcases List.mem_cons.mp h with rfl | h'
    · exact le_trans (le_max_right a x) (le_foldl_max t (max a x))
    · exact ih (max a c) h'

theorem mem_le_listMaxD {x : Int} {l : List Int} (h : x ∈ l) : x ≤ listMaxD l 0 := by
  cases l with
  | nil => cases h
  | cons c t =>
    simp only [listMaxD]
    rcases List.mem_cons.mp h with rfl | h'
    · exact le_foldl_max t x
    · exact mem_le_foldl_max t c h'

/-! ## Helper lemmas: the stable descending sort -/

theorem insDesc_perm {α : Type} (k : α → Int) (a : α) (l : List α) :
    List.Perm (insDesc k a l) (a :: l) := by
  induction l with
  | nil => exact List.Perm.refl _
  | cons b t ih =>
    simp only [insDesc]
    split
    · exact List.Perm.refl _
    · exact List.Perm.trans (List.Perm.cons b ih) (List.Perm.swap a b t)

theorem sortDesc_perm {α : Type} (k : α → Int) (l : List α) :
    List.Perm (sortDesc k l) l := by
  induction l with
  | nil => exact List.Perm.refl _
  | cons a t ih =>
    exact List.Perm.trans (insDesc_perm k a (sortDesc k t)) (List.Perm.cons a ih)

theorem insDesc_sorted {α : Type} (k : α → Int) (a : α) {l : List α}
    (h : l.Pairwise (fun x y => k y ≤ k x)) :
    (insDesc k a l).Pairwise (fun x y => k y ≤ k x) := by
  induction l with
  | nil => simp [insDesc]
  | cons b t ih =>
    simp only [insDesc]
    split
    · rename_i hba
      refine List.Pairwise.cons ?_ h
      intro y hy
      rcases List.mem_cons.mp hy with rfl | hyt
      · exact hba
      · exact le_trans (List.rel_of_pairwise_cons h hyt) hba
    · rename_i hba
      rcases List.pairwise_cons.mp h with ⟨hb, ht⟩
      refine List.Pairwise.cons ?_ (ih ht)
      intro y hy
      rcases List.mem_cons.mp ((insDesc_perm k a t).mem_iff.mp hy) with rfl | hyt
      · exact le_of_lt (not_le.mp hba)
      · exact hb y hyt

theorem sortDesc_sorted {α : Type} (k : α → Int) (l : List α) :
    (sortDesc k l).Pairwise (fun x y => k y ≤ k x) := by
  induction l with
  | nil => simp [sortDesc]
  | cons a t ih => exact insDesc_sorted k a ih

theorem insDesc_filter_ne {α : Type} (k : α → Int) (a : α) (l : List α) {s : Int}
    (hne : ¬ k a = s) :
    (insDesc k a l).filter (fun x => k x == s) = l.filter (fun x => k x == s) := by
  induction l with
  | nil => simp [insDesc, hne]
  | cons b t ih =>
    simp only [insDesc]
    split
    · simp [List.filter_cons, hne]
    · simp [List.filter_cons, ih]

theorem insDesc_filter_eq {α : Type} (k : α → Int) (a : α) {l : List α} {s : Int}
    (heq : k a = s) (hl : l.Pairwise (fun x y => k y ≤ k x)) :
    (insDesc k a l).filter (fun x => k x == s) = a :: l.filter (fun x => k x == s) := by
  induction l with
  | nil => simp [insDesc, heq]
  | cons b t ih =>
    simp only [insDesc]
    split
    · simp [List.filter_cons, heq]
    · rename_i hba
      have hbs : ¬ k b = s := by
        have := not_le.mp hba
        omega
      rcases List.pairwise_cons.mp hl with ⟨hb, ht⟩
      simp [List.filter_cons, hbs, ih ht]

theorem sortDesc_filter {α : Type} (k : α → Int) (l : List α) (s : Int) :
    (sortDesc k l).filter (fun x => k x == s) = l.filter (fun x => k x == s) := by
  induction l with
  | nil => rfl
  | cons a t ih =>
    simp only [sortDesc]
    by_cases ha : k a = s
    · rw [insDesc_filter_eq k a ha (sortDesc_sorted k t), ih, List.filter_cons]
      simp [ha]
    · rw [insDesc_filter_ne k a _ ha, ih, List.filter_cons]
      simp [ha]

/-! ## Helper lemmas: Python max over pairs -/

/-- First element of a list satisfying a boolean predicate (Python
`next(x for x in l if p(x))` with `none` as default). -/
def findFst {α : Type} (p : α → Bool) : List α → Option α
  | [] => none
  | a :: l => if p a then some a else findFst p l

theorem pyMaxSnd_find (best : String × Nat) (l : List (String × Nat)) :
    findFst (fun x => x.2 == (l.map Prod.snd).foldl max best.2) (best :: l)
      = some (pyMaxSnd best l) := by
  induction l generalizing best with
  | nil => simp [pyMaxSnd, findFst]
  | cons x xs ih =>
    simp only [pyMaxSnd, List.map_cons, List.foldl_cons]
    have hM : max best.2 x.2 ≤ (xs.map Prod.snd).foldl max (max best.2 x.2) :=
      le_foldl_max _ _
    by_cases hx : x.2 > best.2
    · rw [if_pos hx]
      have hmax : max best.2 x.2 = x.2 := by omega
      rw [hmax] at hM ⊢
      have hbf : (best.2 == (xs.map Prod.snd).foldl max x.2) = false := by
        have hne : ¬ best.2 = (xs.map Prod.snd).foldl max x.2 := by omega
        simp [hne]
      have hIH := ih x
      simp only [findFst] at hIH ⊢
      simp only [hbf, Bool.false_eq_true, if_false]
      exact hIH
    · rw [if_neg hx]
      have hmax : max best.2 x.2 = best.2 := by omega
      rw [hmax] at hM ⊢
      have hIH := ih best
      by_cases hb : best.2 = (xs.map Prod.snd).foldl max best.2
      · have hbt : (best.2 == (xs.map Prod.snd).foldl max best.2) = true :=
          beq_iff_eq.mpr hb
        simp only [findFst] at hIH ⊢
        simp only [hbt, if_true] at hIH ⊢
        exact hIH
      · have hbf : (best.2 == (xs.map Prod.snd).foldl max best.2) = false := by
          simp [hb]
        have hxf : (x.2 == (xs.map Prod.snd).foldl max best.2) = false := by
          have hne : ¬ x.2 = (xs.map Prod.snd).foldl max best.2 := by omega
          simp [hne]
        simp only [findFst] at hIH ⊢
        simp only [hbf, hxf, Bool.false_eq_true, if_false] at hIH ⊢
        exact hIH

theorem pyMaxSnd_unique (c : String × Nat) (hpos : c.2 ≠ 0) :
    ∀ (l : List (String × Nat)) (best : String × Nat),
      c ∈ best :: l → (∀ x ∈ best :: l, x ≠ c → x.2 = 0) →
      pyMaxSnd best l = c := by
  intro l
  induction l with
  | nil =>
    intro best hc hothers
    rcases List.mem_cons.mp hc with rfl | h
    · rfl
    · cases h
  | cons x xs ih =>
    intro best hc hothers
    simp only [pyMaxSnd]
    by_cases hxc : x = c
    · subst hxc
      by_cases hbc : best = x
      · subst hbc
        rw [if_neg (lt_irrefl best.2)]
        refine ih best (by simp) ?_
        intro y hy hyc
        refine hothers y ?_ hyc
        rcases List.mem_cons.mp hy with rfl | hy'
        · simp
        · simp [hy']
      · have hb0 : best.2 = 0 := hothers best (by simp) (by
          intro h
          exact hbc h)
        have hgt : x.2 > best.2 := by omega
        rw [if_pos hgt]
        refine ih x (by simp) ?_
        intro y hy hyc
        refine hothers y ?_ hyc
        rcases List.mem_cons.mp hy with rfl | hy'
        · simp
        · simp [hy']
    · have hx0 : x.2 = 0 := hothers x (by simp) hxc
      have hnot : ¬ x.2 > best.2 := by omega
      rw [if_neg hnot]
      have hcbx : c ∈ best :: xs := by
        rcases List.mem_cons.mp hc with rfl | hc'
        · simp
        · rcases List.mem_cons.mp hc' with rfl | hc''
          · exact absurd rfl hxc
          · simp [hc'']
      refine ih best hcbx ?_
      intro y hy hyc
      refine hothers y ?_ hyc
      rcases List.mem_cons.mp hy with rfl | hy'
      · simp
      · simp [hy']

/-! ## Helper lemmas: the keyword-score formula -/

theorem kwScore_foldl (m : Memory) (ws : List String) (acc : Nat) :
    ws.foldl
      (fun acc w =>
        acc + (if pyIn w (pyLower m.text) then 1 else 0)
            + (if pyIn w (pyLower m.emotion) then 3 else 0)
            + (if pyIn w (pyLower m.location) then 2 else 0)
            + (if pyIn w (pyJoin " " (m.people.map pyLower)) then 2 else 0)) acc
      = acc + kwScore ws m := by
  induction ws generalizing acc with
  | nil => simp [kwScore]
  | cons w ws ih =>
    rw [List.foldl_cons, ih]
    simp only [kwScore, List.countP_cons]
    split_ifs <;> ring

theorem claimKwScore_eq (query : String) (m : Memory) :
    claimKwScore query m = kwScore (pySplitWs (pyLower query)) m := by
  simpa using kwScore_foldl m (pySplitWs (pyLower query)) 0

/-! ## Helper lemmas: the location scan as a first-success search -/

theorem locScan_eq_findSome (text : String) (ks : List String) :
    locScan text ks = (ks.findSome? (locTryKw text)).getD "Unknown" := by
  induction ks with
  | nil => rfl
  | cons k rest ih =>
    simp only [locScan, locTryKw, List.findSome?_cons]
    split_ifs <;> simp [ih]

/-! ## Claim C4: the keyword scorer -/

/-- C4: for every query string and memory collection, the keyword
scorer returns all memories (a permutation of the annotated input),
each annotated with a `relevance_score` equal to the per-token formula
(+1 text, +3 emotion, +2 location, +2 joined people list, summed over
whitespace-split lower-cased query tokens), sorted descending by that
score, and memories with equal scores keep their original relative
order (the score-`s` sublist of the output equals the score-`s`
sublist of the annotated input, for every `s`). -/
theorem C4_keyword_scorer (query : String) (mems : List Memory) :
    List.Perm (keyword_search query mems)
      (mems.map (fun m =>
        { m with relevance_score := some ((kwScore (pySplitWs (pyLower query)) m : Int)) }))
    ∧ (∀ m ∈ keyword_search query mems,
        m.relevance_score = some ((claimKwScore query m : Int)))
    ∧ (keyword_search query mems).Pairwise (fun a b => scoreKey b ≤ scoreKey a)
    ∧ ∀ s : Int, (keyword_search query mems).filter (fun m => scoreKey m == s)
        = (mems.map (fun m =>
            { m with relevance_score := some ((kwScore (pySplitWs (pyLower query)) m : Int)) })).filter
            (fun m => scoreKey m == s) := by
  refine ⟨sortDesc_perm scoreKey _, ?_, sortDesc_sorted scoreKey _, fun s => sortDesc_filter scoreKey _ s⟩
  intro m hm
  have hmem := (sortDesc_perm scoreKey _).mem_iff.mp hm
  rcases List.mem_map.mp hmem with ⟨m₀, _, rfl⟩
  rw [claimKwScore_eq]
  rfl

/-- C4 witness: the stability clause evaluated at a concrete query,
collection and score. -/
theorem C4_witness :
    (keyword_search "y" [{ mem0 with id := 1, text := "x" }, { mem0 with id := 2, text := "y" }]).filter
        (fun m => scoreKey m == 0)
      = ([{ mem0 with id := 1, text := "x" }, { mem0 with id := 2, text := "y" }].map (fun m =>
          { m with relevance_score := some ((kwScore (pySplitWs (pyLower "y")) m : Int)) })).filter
          (fun m => scoreKey m == 0) :=
  (C4_keyword_scorer "y" [{ mem0 with id := 1, text := "x" }, { mem0 with id := 2, text := "y" }]).2.2.2 0

/-! ## Claim C6: embedding-similarity scoring -/

/-- C6: for a non-empty filtered set (and the always non-empty query
embedding), the embedding stage annotates every memory with the dot
product of the query and memory embeddings truncated to the shorter
length (no normalisation), scores 0 for a memory lacking an embedding,
and stably sorts the filtered set descending by that score. -/
theorem C6_embedding_similarity (qe : List Int) (f : List Memory)
    (hqe : qe ≠ []) (hf : f ≠ []) :
    embStage qe f
      = sortByScoreDesc (f.map (fun m => { m with relevance_score := some (embScore qe m) }))
    ∧ (∀ m ∈ embStage qe f, m.relevance_score = some (embScore qe m))
    ∧ List.Perm (embStage qe f)
        (f.map (fun m => { m with relevance_score := some (embScore qe m) }))
    ∧ (embStage qe f).Pairwise (fun a b => scoreKey b ≤ scoreKey a)
    ∧ (∀ m : Memory, embTruthy m = false → embScore qe m = 0)
    ∧ (∀ m : Memory, embTruthy m = true → embScore qe m = dotTrunc qe (m.embedding.getD [])) := by
  have h1 : qe.isEmpty = false := by
    cases qe with
    | nil => exact absurd rfl hqe
    | cons a t => rfl
  have h2 : f.isEmpty = false := by
    cases f with
    | nil => exact absurd rfl hf
    | cons a t => rfl
  have hst : embStage qe f
      = sortByScoreDesc (f.map (fun m => { m with relevance_score := some (embScore qe m) })) := by
    simp [embStage, h1, h2, sortByScoreDesc]
  refine ⟨hst, ?_, ?_, ?_, ?_, ?_⟩
  · intro m hm
    rw [hst] at hm
    have hmem := (sortDesc_perm scoreKey _).mem_iff.mp hm
    rcases List.mem_map.mp hmem with ⟨m₀, _, rfl⟩
    rfl
  · rw [hst]
    exact sortDesc_perm scoreKey _
  · rw [hst]
    exact sortDesc_sorted scoreKey _
  · intro m hm
    simp [embScore, hm]
  · intro m hm
    simp [embScore, hm]

/-- C6 witness: one memory with embedding `[3]` against query embedding
`[2]` is scored with the exact dot product 6. -/
theorem C6_witness :
    (embStage [2] [{ mem0 with id := 1, embedding := some [3] }]).map
        (fun m => m.relevance_score) = [some 6] := by
  have h := C6_embedding_similarity [2] [{ mem0 with id := 1, embedding := some [3] }]
    (by decide) (by decide)
  rw [h.1]
  decide

/-! ## Claim C7: the fallback emotion classifier -/

/-- C7: each category's score is the number of its keywords occurring
in the lower-cased text; a text with no keyword of any category yields
`"Neutral"`; when some score is non-zero the result is the label of
the first category (in declaration order Happy, Sad, Angry, Anxious,
Peaceful, Nostalgic, Grateful) reaching the maximal score; in
particular a text whose keywords hit exactly one category yields that
category's label. -/
theorem C7_emotion_fallback (text : String) :
    emotionScores text
      = emotionKeywords.map (fun c => (c.1, c.2.countP (fun kw => pyIn kw (pyLower text))))
    ∧ ((∀ x ∈ emotionScores text, x.2 = 0) → basic_emotion_analysis text = "Neutral")
    ∧ ((∃ x ∈ emotionScores text, x.2 ≠ 0) →
        ∃ p, findFst (fun x => x.2 == ((emotionScores text).map Prod.snd).foldl max 0)
              (emotionScores text) = some p
          ∧ p.1 = basic_emotion_analysis text)
    ∧ (∀ c ∈ emotionScores text, c.2 ≠ 0 →
        (∀ x ∈ emotionScores text, x ≠ c → x.2 = 0) →
        basic_emotion_analysis text = c.1) := by
  obtain ⟨h0, t0, hsc⟩ : ∃ h0 t0, emotionScores text = h0 :: t0 := ⟨_, _, rfl⟩
  refine ⟨rfl, ?_, ?_, ?_⟩
  · intro h
    have hany : (emotionScores text).any (fun x => x.2 != 0) = false := by
      rw [List.any_eq_false]
      intro x hx
      simpa using h x hx
    simp [basic_emotion_analysis, hany]
  · intro hex
    have hany : (emotionScores text).any (fun x => x.2 != 0) = true := by
      rcases hex with ⟨x, hx, hxne⟩
      exact List.any_eq_true.mpr ⟨x, hx, by simpa⟩
    refine ⟨pyMaxSnd h0 t0, ?_, ?_⟩
    · rw [hsc, List.map_cons, List.foldl_cons, Nat.max_comm, Nat.max_zero]
      exact pyMaxSnd_find h0 t0
    · rw [hsc] at hany
      simp [basic_emotion_analysis, hsc, hany]
  · intro c hc hcne hothers
    have hany : (emotionScores text).any (fun x => x.2 != 0) = true :=
      List.any_eq_true.mpr ⟨c, hc, by simpa⟩
    rw [hsc] at hc hothers hany
    have hmax := pyMaxSnd_unique c hcne t0 h0 hc hothers
    simp [basic_emotion_analysis, hsc, hany, hmax]

/-- C7 witness: a text hitting only the Happy category is classified
Happy; a keyword-free text is Neutral. -/
theorem C7_witness :
    basic_emotion_analysis "so happy today" = "Happy"
    ∧ basic_emotion_analysis "qqq" = "Neutral" :=
  ⟨(C7_emotion_fallback "so happy today").2.2.2 ("Happy", 1) (by decide) (by decide) (by decide),
   (C7_emotion_fallback "qqq").2.1 (by decide)⟩

/-! ## Claim C8: the fallback location extraction -/

/-- C8 counterexample: on `"a at b at c."` the claim's reading ("the
text following the first match up to the next `'.'` or `','`")
predicts `"b at c"`, but the code's `text.split(" at ")[1]` stops at
the second `" at "` as well, producing `"b"`. -/
theorem C8_counterexample :
    fallback_location "a at b at c." = "b"
    ∧ claimLocScan "a at b at c." = "b at c"
    ∧ fallback_location "a at b at c." ≠ claimLocScan "a at b at c." := by
  decide

/-- C8 amended: the scan tries `"at"`, `"in"`, `"near"`, `"by"` in
priority order; for each keyword the containment test is against the
space-padded text, the candidate fragment is the first split field
after the keyword (so it also stops at the keyword's next occurrence),
truncated at the first `'.'` and then the first `','`, and accepted
only when under 30 characters; on any failure the scan continues with
the next keyword (it does not stop at the first matching keyword), and
`"Unknown"` results only when all four keywords fail — as shown by the
first-success characterisation and by the concrete run in which a
too-long `" at "` fragment falls through to `" in "`. -/
theorem C8_location_fallback (text : String) :
    fallback_location text
      = (List.findSome? (locTryKw text) ["at", "in", "near", "by"]).getD "Unknown"
    ∧ fallback_location "x at aaaaaaaaaaaaaaaaaaaaaaaaaaaaaaaaa in Rome." = "Rome"
    ∧ locTryKw "x at aaaaaaaaaaaaaaaaaaaaaaaaaaaaaaaaa in Rome." "at" = none :=
  ⟨locScan_eq_findSome text ["at", "in", "near", "by"], by decide, by decide⟩

/-- C8 witness: the first-success characterisation evaluated on a
concrete text. -/
theorem C8_witness :
    fallback_location "tea at the park, then home"
      = (List.findSome? (locTryKw "tea at the park, then home") ["at", "in", "near", "by"]).getD
          "Unknown" :=
  (C8_location_fallback "tea at the park, then home").1

/-! ## Claim C5: the final re-ranking reconstruction -/

/-- C5: when the final re-ranking call succeeds (`env.ranking = some
ids`) over a non-empty filtered set, recall returns the memories whose
ids appear in the returned list, in that order, resolved through the
candidate map (ids absent from the map silently dropped), followed by
every filtered-set memory not mentioned in the ranking in its prior
relative order; and the candidate list supplied to the call is the
initial segment of at most 20 memories of the embedding-ranked
order. -/
theorem C5_rerank_reconstruction (query : String) (mems : List Memory) (env : RecallEnv)
    (ids : List Int) (hr : env.ranking = some ids) (hm : mems ≠ [])
    (hf : embStage env.queryEmbedding (filterStage query env.searchParams mems) ≠ []) :
    recall_memories query mems env
      = ids.filterMap
          (fun i => lookupLast
            (embStage env.queryEmbedding (filterStage query env.searchParams mems)) i)
        ++ (embStage env.queryEmbedding (filterStage query env.searchParams mems)).filter
            (fun m => !(ids.contains m.id))
    ∧ rankingCandidates (embStage env.queryEmbedding (filterStage query env.searchParams mems))
        ++ (embStage env.queryEmbedding (filterStage query env.searchParams mems)).drop 20
      = embStage env.queryEmbedding (filterStage query env.searchParams mems)
    ∧ (rankingCandidates
        (embStage env.queryEmbedding (filterStage query env.searchParams mems))).length ≤ 20 := by
  have hme : mems.isEmpty = false := by
    cases mems with
    | nil => exact absurd rfl hm
    | cons a t => rfl
  have hfe : (embStage env.queryEmbedding (filterStage query env.searchParams mems)).isEmpty
      = false := List.isEmpty_eq_false.mpr hf
  refine ⟨?_, List.take_append_drop 20 _, ?_⟩
  · simp [recall_memories, rankStage, hme, hr, hfe]
  · simp only [rankingCandidates, List.length_take]
    omega

/-- C5 witness: ranking `[2]` over the embedding-sorted candidates
`[id 1, id 2]` returns id 2 first, then the unmentioned id 1. -/
theorem C5_witness :
    (recall_memories "q"
        [{ mem0 with id := 1, text := "a", embedding := some [3] },
         { mem0 with id := 2, text := "b" }]
        { queryEmbedding := [1], searchParams := some ⟨[], [], []⟩, ranking := some [2] }).map
      (fun m => m.id) = [2, 1] := by
  have h := C5_rerank_reconstruction "q"
    [{ mem0 with id := 1, text := "a", embedding := some [3] },
     { mem0 with id := 2, text := "b" }]
    { queryEmbedding := [1], searchParams := some ⟨[], [], []⟩, ranking := some [2] }
    [2] rfl (by decide) (by decide)
  rw [h.1]
  decide

/-! ## Claim C1: the fallback structure of recall_memories -/

theorem filterStage_nil (query : String) (sp : Option SearchParams) :
    filterStage query sp [] = [] := by
  cases sp with
  | none =>
    unfold filterStage heuristicFilter
    cases commonEmotions.find? (fun e => pyIn e (pyLower query)) <;> simp
  | some p =>
    simp only [filterStage, paramFilter]
    split_ifs <;> simp

theorem embStage_nil (qe : List Int) : embStage qe [] = [] := by
  simp [embStage]

/-- C1 counterexample: with an exception at the parameter-extraction
stage (`searchParams = none`) and at the re-ranking stage
(`ranking = none`), recall returns the embedding-sorted filtered set
`[id 1, id 2]`, not the keyword scorer's result `[id 2, id 1]` on the
original collection — so "any exception anywhere in the pipeline
yields the keyword scorer on the original collection" is false. -/
theorem C1_counterexample :
    ({ queryEmbedding := [1], searchParams := none, ranking := none } : RecallEnv).searchParams
      = none
    ∧ (recall_memories "beta"
        [{ mem0 with id := 1, text := "alpha", embedding := some [5] },
         { mem0 with id := 2, text := "beta" }]
        { queryEmbedding := [1], searchParams := none, ranking := none }).map (fun m => m.id)
      = [1, 2]
    ∧ (keyword_search "beta"
        [{ mem0 with id := 1, text := "alpha", embedding := some [5] },
         { mem0 with id := 2, text := "beta" }]).map (fun m => m.id)
      = [2, 1]
    ∧ recall_memories "beta"
        [{ mem0 with id := 1, text := "alpha", embedding := some [5] },
         { mem0 with id := 2, text := "beta" }]
        { queryEmbedding := [1], searchParams := none, ranking := none }
      ≠ keyword_search "beta"
          [{ mem0 with id := 1, text := "alpha", embedding := some [5] },
           { mem0 with id := 2, text := "beta" }] := by
  decide

/-- C1 amended: recall never propagates an exception (the model is a
total function over every combination of stage outcomes); an empty
collection returns `[]`; when the set surviving filtering and
embedding ranking is empty the result is the keyword scorer on the
original unfiltered collection; an exception at the
parameter-extraction stage degrades only to the heuristic filter, and
an exception at the re-ranking stage returns the embedding-ranked
filtered set when it is non-empty — only those stage-local fallbacks,
not a jump to the keyword scorer. -/
theorem C1_fallback_structure (query : String) (mems : List Memory) (env : RecallEnv) :
    (recall_memories query [] env = [])
    ∧ (embStage env.queryEmbedding (filterStage query env.searchParams mems) = [] →
        recall_memories query mems env = keyword_search query mems)
    ∧ (env.ranking = none →
        embStage env.queryEmbedding (filterStage query env.searchParams mems) ≠ [] →
        recall_memories query mems env
          = embStage env.queryEmbedding (filterStage query env.searchParams mems)) := by
  refine ⟨rfl, ?_, ?_⟩
  · intro h
    cases mems with
    | nil => rfl
    | cons a t =>
      have hme : ((a :: t) : List Memory).isEmpty = false := rfl
      cases hrk : env.ranking with
      | none => simp [recall_memories, rankStage, hme, hrk, h]
      | some ids => simp [recall_memories, rankStage, hme, hrk, h]
  · intro hrk hne
    cases mems with
    | nil =>
      exact absurd (by rw [filterStage_nil, embStage_nil]) hne
    | cons a t =>
      have hme : ((a :: t) : List Memory).isEmpty = false := rfl
      have hfe := List.isEmpty_eq_false.mpr hne
      simp [recall_memories, rankStage, hme, hrk, hfe]

/-- C1 witness: a query whose heuristic emotion filter empties the
filtered set falls back to the keyword scorer on the original
collection. -/
theorem C1_witness :
    recall_memories "happy" [{ mem0 with id := 1, text := "t", emotion := "Neutral" }]
        { queryEmbedding := [1], searchParams := none, ranking := some [1] }
      = keyword_search "happy" [{ mem0 with id := 1, text := "t", emotion := "Neutral" }] :=
  (C1_fallback_structure "happy" [{ mem0 with id := 1, text := "t", emotion := "Neutral" }]
    { queryEmbedding := [1], searchParams := none, ranking := some [1] }).2.1 (by decide)

/-! ## Claim C2: time-capsule exclusion -/

/-- A memory locked until 2027. -/
def lockedCapsule : Memory :=
  { mem0 with id := 1, text := "secret", unlock_date := some "2027-01-01" }

/-- A memory whose unlock date has already passed. -/
def unlockedCapsule : Memory :=
  { mem0 with id := 2, unlock_date := some "2020-01-01" }

/-- The environment in which both fallible recall stages raise. -/
def plainEnv : RecallEnv :=
  { queryEmbedding := [], searchParams := none, ranking := none }

/-- C2 counterexample: a memory locked until 2027 (strictly in the
future of "now" = 2026-06-01) is excluded by the availability filter
used by the Mind Map, Summaries and Recall-filter paths, yet the
query-driven Recall path hands the full collection to
`recall_memories` and the locked memory appears in its result. -/
theorem C2_counterexample :
    unlockTruthy lockedCapsule.unlock_date = true
    ∧ pyStrLe (lockedCapsule.unlock_date.getD "") "2026-06-01" = false
    ∧ availableMemories [lockedCapsule] "2026-06-01" = []
    ∧ lockedCapsule ∈ recallTab "x" [lockedCapsule] plainEnv := by
  decide

/-- C2 amended: a memory with a non-empty `unlock_date` strictly after
"now" is excluded from `availableMemories` — the input of the Mind Map
visualization, of summarization and of the Recall tab's filter-based
listing — and it is included again once "now" reaches the unlock date;
the query-driven recall call, however, receives the full unfiltered
collection (see the counterexample). -/
theorem C2_unlock_filter (mems : List Memory) (m : Memory) (now d : String)
    (hm : m ∈ mems) (hd : m.unlock_date = some d) :
    (d ≠ "" → pyStrLe d now = false → m ∉ availableMemories mems now)
    ∧ (pyStrLe d now = true → m ∈ availableMemories mems now) := by
  constructor
  · intro hne hle hmem
    have hpred := (List.mem_filter.mp hmem).2
    rw [hd] at hpred
    simp [unlockTruthy, hne, hle] at hpred
  · intro hle
    refine List.mem_filter.mpr ⟨hm, ?_⟩
    rw [hd]
    simp [unlockTruthy, hle]

/-- C2 witness: the filter evaluated on a locked and on an unlocked
memory. -/
theorem C2_witness :
    lockedCapsule ∉ availableMemories [lockedCapsule] "2026-06-01"
    ∧ unlockedCapsule ∈ availableMemories [unlockedCapsule] "2026-06-01" :=
  ⟨(C2_unlock_filter [lockedCapsule] lockedCapsule "2026-06-01" "2027-01-01"
      (by decide) rfl).1 (by decide) (by decide),
   (C2_unlock_filter [unlockedCapsule] unlockedCapsule "2026-06-01" "2020-01-01"
      (by decide) rfl).2 (by decide)⟩

/-! ## Claim C3: id assignment and uniqueness -/

/-- The ids `next, next + 1, ..., next + (n - 1)` handed out by the
`next_id += 1` loop of `import_memories_json`. -/
def idRange (next : Int) : Nat → List Int
  | 0 => []
  | n + 1 => next :: idRange (next + 1) n

theorem mem_idRange {a next : Int} {n : Nat} (h : a ∈ idRange next n) :
    next ≤ a ∧ a < next + (n : Int) := by
  induction n generalizing next with
  | zero => cases h
  | succ n ih =>
    rcases List.mem_cons.mp h with rfl | h'
    · omega
    · have := ih h'
      omega

theorem idRange_nodup (next : Int) (n : Nat) : (idRange next n).Nodup := by
  induction n generalizing next with
  | zero => exact List.nodup_nil
  | succ n ih =>
    refine List.Nodup.cons ?_ (ih (next + 1))
    intro hmem
    have := mem_idRange hmem
    omega

theorem assign_ids_from (next : Int) (i : Nat) (l : List Memory) :
    ((List.enumFrom i l).map (fun p => { p.2 with id := next + (p.1 : Int) })).map
        (fun x => x.id)
      = idRange (next + (i : Int)) l.length := by
  induction l generalizing i with
  | nil => rfl
  | cons a t ih =>
    simp only [List.enumFrom, List.map_cons, List.length_cons, idRange]
    congr 1
    rw [ih (i + 1)]
    congr 1
    push_cast
    ring

theorem assign_ids (next : Int) (l : List Memory) :
    ((l.enum.map (fun p => { p.2 with id := next + (p.1 : Int) })).map (fun x => x.id))
      = idRange next l.length := by
  have h := assign_ids_from next 0 l
  simpa using h

/-- Memories used in the C3 counterexample run. -/
def capA : Memory := { mem0 with text := "a" }

def capB : Memory := { mem0 with text := "b" }

def capC : Memory := { mem0 with text := "c" }

/-- Capture twice (ids 1, 2), delete id 1, capture again. -/
def storeAfterDelete : List Memory :=
  (delete_memory (captureMemory (captureMemory [] capA) capB) 1).2.1

def storeWithDup : List Memory := captureMemory storeAfterDelete capC

/-- C3 counterexample: capture, capture, delete id 1, capture is a
reachable operation sequence; the final capture receives id
`len + 1 = 2`, not `max + 1 = 3`, so the store holds two memories with
id 2 and its ids are not pairwise distinct. -/
theorem C3_counterexample :
    Reachable storeWithDup
    ∧ (storeWithDup.map (fun m => m.id)) = [2, 2]
    ∧ ¬ (storeWithDup.map (fun m => m.id)).Nodup
    ∧ listMaxD (storeAfterDelete.map (fun m => m.id)) 0 + 1 = 3 := by
  refine ⟨?_, by decide, by decide, by decide⟩
  exact Reachable.capture capC
    (Reachable.deleteById 1 (Reachable.capture capB (Reachable.capture capA Reachable.empty)))

/-- C3 amended: JSON import assigns the imported records the
sequential ids `max existing id + 1, max + 2, ...`, which preserves
pairwise-distinct ids; memory capture, however, assigns
`store length + 1`, which coincides with `max + 1` only while ids have
no gaps — after a deletion it can duplicate an existing id (see the
counterexample), so id uniqueness does not hold in every reachable
state. -/
theorem C3_id_assignment (s : List Memory) (m : Memory) (l : List Memory)
    (h : (s.map (fun x => x.id)).Nodup) :
    ((captureMemory s m).map (fun x => x.id))
      = s.map (fun x => x.id) ++ [(s.length : Int) + 1]
    ∧ ((import_memories_json s l).map (fun x => x.id))
        = s.map (fun x => x.id)
          ++ idRange (listMaxD (s.map (fun x => x.id)) 0 + 1) l.length
    ∧ ((import_memories_json s l).map (fun x => x.id)).Nodup := by
  have hids : ((import_memories_json s l).map (fun x => x.id))
      = s.map (fun x => x.id)
        ++ idRange (listMaxD (s.map (fun x => x.id)) 0 + 1) l.length := by
    simp only [import_memories_json, List.map_append]
    rw [assign_ids]
  refine ⟨by simp [captureMemory], hids, ?_⟩
  rw [hids, List.nodup_append]
  refine ⟨h, idRange_nodup _ _, ?_⟩
  intro a ha hb
  have h1 : a ≤ listMaxD (s.map (fun x => x.id)) 0 := mem_le_listMaxD ha
  have h2 := mem_idRange hb
  omega

/-- C3 witness: importing one record into a store whose single id is 5
gives the fresh id 6 and keeps ids pairwise distinct. -/
theorem C3_witness :
    ((import_memories_json [{ mem0 with id := 5 }] [mem0]).map (fun x => x.id)).Nodup :=
  (C3_id_assignment [{ mem0 with id := 5 }] mem0 [mem0] (by decide)).2.2

/-! ## Claim C9: export/import round trip -/

theorem assign_map_eq {β : Type} (g : Memory → β)
    (hg : ∀ m i, g { m with id := i } = g m) (next : Int) (l : List Memory) :
    ((l.enum.map (fun p => { p.2 with id := next + (p.1 : Int) })).map g) = l.map g := by
  rw [List.map_map]
  have h1 : (g ∘ fun p : Nat × Memory => { p.2 with id := next + (p.1 : Int) })
      = fun p : Nat × Memory => g p.2 := funext fun p => hg p.2 _
  rw [h1]
  have h2 : (fun p : Nat × Memory => g p.2) = g ∘ Prod.snd := rfl
  rw [h2, ← List.map_map, List.enum_map_snd]

/-- C9: exporting a collection to JSON and importing the result into a
store preserves the `text`, `date`, `emotion`, `people` and `location`
fields of every record in order, strips every `embedding`, and
reassigns the imported records the fresh sequential ids
`max existing id + 1, max + 2, ...`, all strictly greater than every
id already in the store. -/
theorem C9_round_trip (mems store : List Memory) :
    ((import_memories_json store (export_memories_json mems)).drop store.length).map
        (fun m => (m.text, m.date, m.emotion, m.people, m.location))
      = mems.map (fun m => (m.text, m.date, m.emotion, m.people, m.location))
    ∧ ((import_memories_json store (export_memories_json mems)).drop store.length).map
        (fun m => m.embedding)
      = mems.map (fun _ => (none : Option (List Int)))
    ∧ ((import_memories_json store (export_memories_json mems)).drop store.length).map
        (fun m => m.id)
      = idRange (listMaxD (store.map (fun x => x.id)) 0 + 1) mems.length
    ∧ ∀ mOld ∈ store,
        ∀ mNew ∈ (import_memories_json store (export_memories_json mems)).drop store.length,
          mOld.id < mNew.id := by
  have hdrop : (import_memories_json store (export_memories_json mems)).drop store.length
      = (export_memories_json mems).enum.map
          (fun p =>
            { p.2 with id := listMaxD (store.map (fun m => m.id)) 0 + 1 + (p.1 : Int) }) := by
    simp only [import_memories_json]
    exact List.drop_left _ _
  have hlen : (export_memories_json mems).length = mems.length := by
    simp [export_memories_json]
  have hid : ((import_memories_json store (export_memories_json mems)).drop store.length).map
      (fun m => m.id)
      = idRange (listMaxD (store.map (fun x => x.id)) 0 + 1) mems.length := by
    rw [hdrop, assign_ids, hlen]
  refine ⟨?_, ?_, hid, ?_⟩
  · rw [hdrop,
      assign_map_eq (fun m => (m.text, m.date, m.emotion, m.people, m.location))
        (fun m i => rfl) _ _]
    simp only [export_memories_json, List.map_map]
    rfl
  · rw [hdrop, assign_map_eq (fun m => m.embedding) (fun m i => rfl) _ _]
    simp only [export_memories_json, List.map_map]
    rfl
  · intro mOld hmo mNew hmn
    have h1 : mNew.id ∈ ((import_memories_json store (export_memories_json mems)).drop
        store.length).map (fun m => m.id) := List.mem_map_of_mem _ hmn
    rw [hid] at h1
    have h2 := mem_idRange h1
    have h3 : mOld.id ≤ listMaxD (store.map (fun x => x.id)) 0 :=
      mem_le_listMaxD (List.mem_map_of_mem _ hmo)
    omega

/-- C9 witness: one exported record imported into a store with id 5 is
stripped of its embedding. -/
theorem C9_witness :
    ((import_memories_json [{ mem0 with id := 5 }]
        (export_memories_json [{ mem0 with id := 1, embedding := some [7] }])).drop
        ([({ mem0 with id := 5 } : Memory)] : List Memory).length).map (fun m => m.embedding)
      = [({ mem0 with id := 1, embedding := some [7] } : Memory)].map
          (fun _ => (none : Option (List Int))) :=
  (C9_round_trip [{ mem0 with id := 1, embedding := some [7] }] [{ mem0 with id := 5 }]).2.1

/-! ## Claim C10: update/delete on a missing id -/

/-- C10: updating or deleting an id not present in the store returns
`False`, leaves the stored collection entirely unchanged and writes
nothing to disk. -/
theorem C10_missing_id (store : List Memory) (mid : Int) (upd : Memory → Memory)
    (h : ∀ m ∈ store, m.id ≠ mid) :
    update_memory store mid upd = (false, store, false)
    ∧ delete_memory store mid = (false, store, false) := by
  induction store with
  | nil => exact ⟨rfl, rfl⟩
  | cons m rest ih =>
    have hm : (m.id == mid) = false := by
      simp [h m (by simp)]
    have ihh := ih (fun x hx => h x (by simp [hx]))
    constructor
    · simp [update_memory, hm, ihh.1]
    · simp [delete_memory, hm, ihh.2]

/-- C10 witness: id 2 is absent from a store holding only id 1. -/
theorem C10_witness :
    update_memory [{ mem0 with id := 1 }] 2 (fun m => { m with unlock_date := some "d" })
      = (false, [{ mem0 with id := 1 }], false)
    ∧ delete_memory [{ mem0 with id := 1 }] 2 = (false, [{ mem0 with id := 1 }], false) :=
  C10_missing_id [{ mem0 with id := 1 }] 2 (fun m => { m with unlock_date := some "d" })
    (by decide)
